import Mathlib

/-
  Verification development for the badger job-queue dashboard
  (package web: handlers inspectQueue, inspectJob, requeueOrDelete).

  The shared store is Redis; each queue q owns the keys
    badger:pending:q, badger:delayed:q, badger:failed:q, badger:done:q
  holding lists of strings, and badger:running:q holding a hash.
  List entries are stored as id:payload strings.

  We model the store as a map from key to list of strings and embed the
  Redis list primitives the handlers call (LREM with count 1, LPUSH,
  LRANGE with inclusive bounds) together with the handlers themselves.
-/

namespace Badger

/-- Splitting of a character list on the colon character, one group per
separator occurrence; embeds the Go strings.Split call with ":" used by
the handlers. -/
def splitOnColon : List Char → List (List Char)
  | [] => [[]]
  | c :: rest =>
    let r := splitOnColon rest
    if c = ':' then [] :: r
    else
      match r with
      | [] => [[c]]
      | g :: gs => (c :: g) :: gs

/-- Go strings.Split(s, ":") on strings. -/
def splitColon (s : String) : List String :=
  (splitOnColon s.data).map (fun cs => String.mk cs)

/-- Redis LREM key 1 value: remove the first occurrence (head to tail)
of v from the list. -/
def lremOne : List String → String → List String
  | [], _ => []
  | x :: xs, v => if x = v then xs else x :: lremOne xs v

/-- Redis LRANGE key start stop for 0 ≤ start ≤ stop: the elements at
indexes start..stop, both ends inclusive, clamped to the list length. -/
def lrange (l : List String) (start stop : Nat) : List String :=
  (l.drop start).take (stop - start + 1)

/-- The store state seen by the handlers: each Redis key holds a list of
strings (a fresh key holds the empty list). -/
abbrev Store := String → List String

/-- Point update of one key of the store. -/
def storeSet (st : Store) (k : String) (v : List String) : Store :=
  fun k2 => if k2 = k then v else st k2

/-- Parsing of one stored list entry in inspectQueue: the value is split
on ":"; with more than one part the id is part 0 and the shown job is
part 1 (parts after the first colon of the payload are dropped by the
handler); otherwise the id is empty and the job is the raw value. -/
def parseEntry (v : String) : String × String :=
  match splitColon v with
  | id :: job :: _ => (id, job)
  | _ => ("", v)

/-- Page size used by inspectQueue (var jobsRange int64 = 10). -/
def jobsRange : Nat := 10

/-- The data inspectQueue renders for a list collection. -/
structure InspectData where
  jobs : List String
  jobsID : List String
  total : Nat
  nextStart : Nat
  prevStart : Nat
  deriving Repr, DecidableEq

/-- The non-running branch of inspectQueue: LRANGE from start to
start + jobsRange (both inclusive), each returned value split into id
and job; NextStart is stop, PrevStart is start - jobsRange clamped
at zero. -/
def inspectQueue (l : List String) (start : Nat) : InspectData :=
  let stop := start + jobsRange
  let res := lrange l start stop
  { jobs := res.map (fun v => (parseEntry v).2)
    jobsID := res.map (fun v => (parseEntry v).1)
    total := l.length
    nextStart := stop
    prevStart := start - jobsRange }

/-- The fixed text inspectJob renders when the stored log is empty. -/
def jobLogMissingText : String := "Logging is set to false in config file"

/-- The inspectJob handler body: HGET badger:joblog logid (an absent
field yields the empty string, the error being discarded), and the
fixed text is substituted whenever the result is empty. The handler
never consults the configuration. -/
def inspectJob (joblog : String → Option String) (logid : String) : String :=
  let res := (joblog logid).getD ""
  if res = "" then jobLogMissingText else res

/-- The requeueOrDelete handler store effect. With operation "delete"
it runs LREM queueName 1 (jobId ++ ":" ++ job). With any other
operation it splits queueName on ":"; when there are exactly three
parts it LPUSHes the bare job string onto part0:pending:part2 and
touches nothing else. -/
def requeueOrDelete (st : Store) (jobId job queueName operation : String) : Store :=
  if operation = "delete" then
    storeSet st queueName (lremOne (st queueName) (jobId ++ ":" ++ job))
  else
    match splitColon queueName with
    | [a, _, c] =>
      let pendingQueue := a ++ ":pending:" ++ c
      storeSet st pendingQueue (job :: st pendingQueue)
    | _ => st

/-- The list-level view of the delete branch of requeueOrDelete. -/
def deleteOp (l : List String) (jobId job : String) : List String :=
  lremOne l (jobId ++ ":" ++ job)

/-- Concrete failed-collection key of the queue named render. -/
def failedKey : String := "badger:failed:render"

/-- Concrete pending-collection key of the queue named render. -/
def pendingKey : String := "badger:pending:render"

/-- A store whose only entry is the failed job J:p of queue render. -/
def st0 : Store := fun k => if k = failedKey then ["J:p"] else []

/-- The store after the administrative requeue of that failed entry. -/
def st1 : Store := requeueOrDelete st0 "J" "p" failedKey "requeue"

/-- The empty store: every collection of every queue is empty. -/
def stEmpty : Store := fun _ => []

/-- Claim C1: mutual exclusion should be preserved by every operation,
but after the administrative requeue of the failed entry J:p of queue
render, the entry is still present in the failed collection while the
job's payload entry now also sits in the pending collection: the job
occupies two collections of its queue at once. -/
theorem c1_requeue_breaks_mutual_exclusion :
    "J:p" ∈ st1 failedKey ∧ "p" ∈ st1 pendingKey := by decide

/-- Claim C2: the administrative requeue of a failed entry should move
it to pending, removing it from the source collection; the handler
instead leaves the source collection exactly as it was and LPUSHes a
copy of the payload onto pending. -/
theorem c2_requeue_does_not_remove_source :
    st1 failedKey = st0 failedKey ∧ st0 failedKey = ["J:p"]
      ∧ st1 pendingKey = ["p"] := by decide

/-- Claim C3: requeue should reset the attempt count to zero; the
handler pushes the job string onto pending completely unchanged and
reads or writes nothing else in the store, so whatever attempt count
the stored job carries is preserved, not reset. -/
theorem c3_requeue_pushes_job_string_verbatim (st : Store) (jobId job : String) :
    (requeueOrDelete st jobId job failedKey "requeue") pendingKey
        = job :: st pendingKey
      ∧ (requeueOrDelete st jobId job failedKey "requeue") failedKey
        = st failedKey
      ∧ (requeueOrDelete st jobId job failedKey "requeue") "badger:joblog"
        = st "badger:joblog" :=
  ⟨rfl, rfl, rfl⟩

/-- Claim C5: the payload should be copied verbatim through listing and
requeue, also when it contains a colon; but inspectQueue splits the
stored value J:a:b on every colon and shows only the first payload
segment, so the payload a:b is presented as a. -/
theorem c5_colon_payload_truncated_by_listing :
    parseEntry "J:a:b" = ("J", "a")
      ∧ (inspectQueue ["J:a:b"] 0).jobs = ["a"]
      ∧ "a" ≠ "a:b" := by decide

/-- Claim C6: entries inserted into a list collection should embed the
job id as a prefix, and requeue should locate its target by that id;
the requeue branch instead inspects no source entry at all and inserts
the bare job string, whose parsed embedded id is empty rather than J. -/
theorem c6_requeue_inserts_entry_without_id :
    st1 pendingKey = ["p"]
      ∧ parseEntry "p" = ("", "p")
      ∧ "p" ≠ "J" ++ ":" ++ "p"
      ∧ st1 failedKey = st0 failedKey := by decide

/-- Claim C7: when the requeue target is absent the store should not be
mutated; starting from the empty store (the failed collection holds no
entry at all), the requeue operation still pushes the job string onto
the pending collection, mutating the store. -/
theorem c7_requeue_mutates_store_when_target_absent :
    stEmpty failedKey = []
      ∧ (requeueOrDelete stEmpty "J" "p" failedKey "requeue") pendingKey = ["p"]
      ∧ (requeueOrDelete stEmpty "J" "p" failedKey "requeue") pendingKey
        ≠ stEmpty pendingKey := by decide

/-- A member of a list splits it at the first occurrence. -/
lemma exists_first_split {v : String} {l : List String} (h : v ∈ l) :
    ∃ l1 l2, l = l1 ++ v :: l2 ∧ v ∉ l1 := by
  induction l with
  | nil => simp at h
  | cons x xs ih =>
    by_cases hx : x = v
    · exact ⟨[], xs, by simp [hx], by simp⟩
    · have hv : v ∈ xs := by
        rcases List.mem_cons.mp h with h1 | h1
        · exact absurd h1.symm hx
        · exact h1
      rcases ih hv with ⟨l1, l2, hl, hnot⟩
      refine ⟨x :: l1, l2, by simp [hl], ?_⟩
      intro hmem
      rcases List.mem_cons.mp hmem with h1 | h1
      · exact hx h1.symm
      · exact hnot h1

/-- LREM with count 1 removes exactly the first occurrence. -/
lemma lremOne_append (l1 l2 : List String) (v : String) (h : v ∉ l1) :
    lremOne (l1 ++ v :: l2) v = l1 ++ l2 := by
  induction l1 with
  | nil => simp [lremOne]
  | cons x xs ih =>
    have hx : ¬(x = v) := fun hh => h (by simp [hh])
    simp only [List.cons_append, lremOne, if_neg hx, List.append_eq]
    rw [ih (fun hm => h (List.mem_cons_of_mem _ hm))]

/-- Claim C4: when the collection holds exactly one entry whose embedded
id is the given jobId and the delete call names that entry exactly
(its stored value is jobId:job), the delete branch removes exactly that
entry: the remaining entries keep their relative order, the length
drops by one, and no entry with that id remains. -/
theorem c4_delete_removes_exactly_one (l : List String) (jobId job : String)
    (hmem : jobId ++ ":" ++ job ∈ l)
    (hid : (parseEntry (jobId ++ ":" ++ job)).1 = jobId)
    (huniq : l.countP (fun w => (parseEntry w).1 == jobId) = 1) :
    ∃ l1 l2, l = l1 ++ (jobId ++ ":" ++ job) :: l2
      ∧ deleteOp l jobId job = l1 ++ l2
      ∧ (deleteOp l jobId job).length + 1 = l.length
      ∧ (deleteOp l jobId job).countP (fun w => (parseEntry w).1 == jobId) = 0 := by
  obtain ⟨l1, l2, hl, hnotin⟩ := exists_first_split hmem
  have hdel : deleteOp l jobId job = l1 ++ l2 := by
    rw [hl]; exact lremOne_append l1 l2 _ hnotin
  refine ⟨l1, l2, hl, hdel, ?_, ?_⟩
  · rw [hdel, hl]
    simp [List.length_append]
    omega
  · have hp : ((parseEntry (jobId ++ ":" ++ job)).1 == jobId) = true := by
      simp [hid]
    have h2 : (l1 ++ (jobId ++ ":" ++ job) :: l2).countP
          (fun w => (parseEntry w).1 == jobId)
        = l1.countP (fun w => (parseEntry w).1 == jobId)
          + (l2.countP (fun w => (parseEntry w).1 == jobId) + 1) := by
      rw [List.countP_append, List.countP_cons, hp]
      simp
    rw [hl, h2] at huniq
    rw [hdel, List.countP_append]
    omega

/-- Witness for claim C4 at a concrete two-entry pending collection. -/
theorem c4_witness : ∃ l1 l2, (["J:a", "K:b"] : List String)
      = l1 ++ ("J" ++ ":" ++ "a") :: l2
    ∧ deleteOp ["J:a", "K:b"] "J" "a" = l1 ++ l2
    ∧ (deleteOp ["J:a", "K:b"] "J" "a").length + 1
      = (["J:a", "K:b"] : List String).length
    ∧ (deleteOp ["J:a", "K:b"] "J" "a").countP
        (fun w => (parseEntry w).1 == "J") = 0 :=
  c4_delete_removes_exactly_one ["J:a", "K:b"] "J" "a"
    (by decide) (by decide) (by decide)

/-- Element i of the page starting at s is element s + i of the list,
for i up to the inclusive page bound. -/
lemma lrange_page_getElem (l : List String) (s i : Nat) (hi : i ≤ 10) :
    (lrange l s (s + 10))[i]? = l[s + i]? := by
  unfold lrange
  rw [show s + 10 - s + 1 = 11 from by omega, List.getElem?_take,
    if_pos (by omega : i < 11), List.getElem?_drop]

/-- Claim C9: for a list collection and start index s, the listing
returns the entries at indexes s through s + 10 inclusive (eleven
entries when that many exist), sets the next page start to s + 10, and
therefore the entry at index s + 10 is returned both by the page
starting at s and by the page starting at s + 10. -/
theorem c9_pagination_inclusive_overlap (l : List String) (s : Nat)
    (h : s + 10 < l.length) :
    (inspectQueue l s).nextStart = s + 10
      ∧ (∀ i : Nat, i ≤ 10 → (lrange l s (s + 10))[i]? = l[s + i]?)
      ∧ (lrange l s (s + 10)).length = 11
      ∧ ∃ v, l[s + 10]? = some v
          ∧ v ∈ lrange l s (s + 10)
          ∧ v ∈ lrange l (s + 10) (s + 10 + 10)
          ∧ (inspectQueue l s).jobs
            = (lrange l s (s + 10)).map (fun w => (parseEntry w).2) := by
  refine ⟨rfl, fun i hi => lrange_page_getElem l s i hi, ?_, ?_⟩
  · unfold lrange
    rw [List.length_take, List.length_drop]
    omega
  · obtain ⟨v, hv⟩ : ∃ v, l[s + 10]? = some v :=
      ⟨_, List.getElem?_eq_getElem h⟩
    refine ⟨v, hv, ?_, ?_, rfl⟩
    · exact List.getElem?_mem ((lrange_page_getElem l s 10 le_rfl).trans hv)
    · have h0 : (lrange l (s + 10) (s + 10 + 10))[0]? = l[s + 10]? := by
        have := lrange_page_getElem l (s + 10) 0 (by omega)
        simpa using this
      exact List.getElem?_mem (h0.trans hv)

/-- Witness for claim C9 on a twelve-entry collection at start 0. -/
theorem c9_witness :
    (inspectQueue ["a", "b", "c", "d", "e", "f", "g", "h", "i", "j", "k", "m"] 0).nextStart
        = 0 + 10
      ∧ (∀ i : Nat, i ≤ 10 →
          (lrange ["a", "b", "c", "d", "e", "f", "g", "h", "i", "j", "k", "m"] 0 (0 + 10))[i]?
            = ["a", "b", "c", "d", "e", "f", "g", "h", "i", "j", "k", "m"][0 + i]?)
      ∧ (lrange ["a", "b", "c", "d", "e", "f", "g", "h", "i", "j", "k", "m"] 0 (0 + 10)).length = 11
      ∧ ∃ v, ["a", "b", "c", "d", "e", "f", "g", "h", "i", "j", "k", "m"][0 + 10]? = some v
          ∧ v ∈ lrange ["a", "b", "c", "d", "e", "f", "g", "h", "i", "j", "k", "m"] 0 (0 + 10)
          ∧ v ∈ lrange ["a", "b", "c", "d", "e", "f", "g", "h", "i", "j", "k", "m"] (0 + 10) (0 + 10 + 10)
          ∧ (inspectQueue ["a", "b", "c", "d", "e", "f", "g", "h", "i", "j", "k", "m"] 0).jobs
            = (lrange ["a", "b", "c", "d", "e", "f", "g", "h", "i", "j", "k", "m"] 0 (0 + 10)).map
                (fun w => (parseEntry w).2) :=
  c9_pagination_inclusive_overlap
    ["a", "b", "c", "d", "e", "f", "g", "h", "i", "j", "k", "m"] 0 (by decide)

/-- Claim C10: whenever the stored job log for the given log id is
absent or empty, inspectJob renders the fixed text claiming logging is
disabled, independently of the actual configuration (which the handler
never reads). -/
theorem c10_empty_log_shows_fixed_text (joblog : String → Option String)
    (logid : String) (h : joblog logid = none ∨ joblog logid = some "") :
    inspectJob joblog logid = "Logging is set to false in config file" := by
  rcases h with h | h <;> simp [inspectJob, h, jobLogMissingText]

/-- Witness for claim C10 at a store with no job log at all. -/
theorem c10_witness :
    inspectJob (fun _ => none) "42" = "Logging is set to false in config file" :=
  c10_empty_log_shows_fixed_text (fun _ => none) "42" (Or.inl rfl)

/-- Modelled from the spec: the per-queue collections of the queue
store. The queue engine (store, dispatcher, promoter, monitor) is not
among the sources here, which contain only the web observability
layer, so its state is modelled from the data model of the spec. -/
structure CoreState where
  pending : List String
  running : List String
  delayed : List String
  failed : List String
  done : List String

/-- Modelled from the spec: the atomic store transitions of a queue
configured with concurrency limit C. Enqueue appends to pending or
delayed; promotion moves a delayed entry to pending; a dequeue is the
single atomic pending-to-running move guarded by the admission gate,
which the spec requires to be an atomic acquire-if-under-cap counter in
the store, so it is enabled only while running holds fewer than C
entries; completion, failure and retry atomically move a running entry
out of running. -/
inductive CoreStep (C : Nat) : CoreState → CoreState → Prop
  | enqueue (s : CoreState) (j : String) :
      CoreStep C s { s with pending := s.pending ++ [j] }
  | enqueueDelayed (s : CoreState) (j : String) :
      CoreStep C s { s with delayed := s.delayed ++ [j] }
  | promote (s : CoreState) (j : String) (hj : j ∈ s.delayed) :
      CoreStep C s
        { s with delayed := s.delayed.erase j, pending := s.pending ++ [j] }
  | dequeue (s : CoreState) (j : String) (rest : List String)
      (hp : s.pending = j :: rest) (hc : s.running.length < C) :
      CoreStep C s { s with pending := rest, running := j :: s.running }
  | complete (s : CoreState) (j : String) (hj : j ∈ s.running) :
      CoreStep C s
        { s with running := s.running.erase j, done := j :: s.done }
  | fail (s : CoreState) (j : String) (hj : j ∈ s.running) :
      CoreStep C s
        { s with running := s.running.erase j, failed := j :: s.failed }
  | requeueFromRunning (s : CoreState) (j : String) (hj : j ∈ s.running) :
      CoreStep C s
        { s with running := s.running.erase j, pending := s.pending ++ [j] }

/-- Reachability of a store state through the atomic transitions. -/
def Reachable (C : Nat) : CoreState → CoreState → Prop :=
  Relation.ReflTransGen (CoreStep C)

/-- Claim C8: in every state reachable from a state with an empty
running collection, the running collection of the queue never holds
more than C entries, C being the configured concurrency limit. -/
theorem c8_running_never_exceeds_concurrency (C : Nat) (s0 s : CoreState)
    (h0 : s0.running = []) (h : Reachable C s0 s) : s.running.length ≤ C := by
  induction h with
  | refl => simp [h0]
  | @tail b c _ hstep ih =>
    cases hstep with
    | enqueue j => exact ih
    | enqueueDelayed j => exact ih
    | promote j hj => exact ih
    | dequeue j rest hp hc => simpa using hc
    | complete j hj =>
      exact le_trans (List.Sublist.length_le (List.erase_sublist j b.running)) ih
    | fail j hj =>
      exact le_trans (List.Sublist.length_le (List.erase_sublist j b.running)) ih
    | requeueFromRunning j hj =>
      exact le_trans (List.Sublist.length_le (List.erase_sublist j b.running)) ih

/-- Witness for claim C8: with concurrency 1, after enqueuing one job
  and dequeuing it, the running collection holds at most one entry. -/
theorem c8_witness :
    (CoreState.mk [] ["a"] [] [] []).running.length ≤ 1 :=
  c8_running_never_exceeds_concurrency 1
    (CoreState.mk [] [] [] [] []) (CoreState.mk [] ["a"] [] [] []) rfl
    (Relation.ReflTransGen.tail
      (Relation.ReflTransGen.single
        (CoreStep.enqueue (CoreState.mk [] [] [] [] []) "a"))
      (CoreStep.dequeue (CoreState.mk ["a"] [] [] [] []) "a" [] rfl
        (by decide)))

end Badger
